import Mathlib

/-!
Verification of the jsface object-oriented programming library (src/jsface.js)
against its natural-language specification.

The development shallowly embeds the relevant parts of the source:

* `each` (src/jsface.js lines 60-89): the polymorphic iteration primitive.
* `makeSuper` (lines 94-127): the dynamic super-dispatcher installed on a
  class's prototype.
* `extend` (lines 132-157) and `Class` (lines 162-189): the composition
  engine and the class factory.
* `Class.plugins.$ready` (lines 192-212): the ready-callback registry.

JavaScript values are modelled by small inductive types carrying exactly the
information the embedded code inspects (truthiness, map/array/function/class
classification, member tables, function identity).  Object member tables are
association lists with JavaScript assignment semantics (update in place,
append if new).  Mutation of `this.$super` is modelled by explicit state
passing; the single `throw` in the source is modelled with `Except`.
-/

namespace JSFace

/-- Generic association-list lookup, modelling JavaScript property access on
an object with own enumerable properties `t` (first binding wins; the tables
built by the embedded code always have unique keys). -/
def lookupT {β : Type} : List (String × β) → String → Option β
  | [], _ => none
  | (k', v) :: rest, k => if k' = k then some v else lookupT rest k

/-! ## Model of `each` (src/jsface.js lines 60-89)

`each(collection, fn)` classifies `collection` with the type predicates
`isString`/`isArray`/`isMap`/`isFunction` (lines 22-45).  The classification
is represented here by the constructor of `Collection`:

* `cstr s`    : a string (`isString`),
* `carr xs`   : an array (`isArray`),
* `cmap kvs`  : a map object with own enumerable pairs `kvs` in enumeration
  order (`isMap`),
* `cfun kvs`  : a function with own enumerable (static) properties `kvs`
  (`isFunction`),
* `cscalar b x` : any other value, with truthiness `b` (line 71 wraps it
  into a one-element array),
* `cabsent`   : a falsy non-string collection (`undefined`, `null`, `0`, ...).
-/

/-- The value a callback returns: `Infinity` (the stop sentinel, line 79/84)
or an ordinary value. -/
inductive FnRes (ρ : Type) where
  | stop
  | val (r : ρ)
deriving DecidableEq

/-- `valOf` projects the ordinary value out of a callback result. -/
def FnRes.valOf {ρ : Type} : FnRes ρ → Option ρ
  | .stop => none
  | .val r => some r

/-- One positional argument passed to the callback: an element or map value
(`aval`), a string (a key, or a character produced by `charAt`, line 78), or
a numeric index. -/
inductive EachArg (α : Type) where
  | aval (v : α)
  | astr (s : String)
  | anum (i : Nat)
deriving DecidableEq

/-- A collection as classified by `each` (see section comment). -/
inductive Collection (α : Type) where
  | cstr (s : String)
  | carr (xs : List α)
  | cmap (kvs : List (String × α))
  | cfun (kvs : List (String × α))
  | cscalar (truthy : Bool) (x : α)
  | cabsent
deriving DecidableEq

/-- JavaScript truthiness of a collection value (`!collection`, line 63):
`undefined`/`null`/falsy scalars and the empty string are falsy; arrays,
maps and functions are objects and hence truthy. -/
def Collection.truthy {α : Type} : Collection α → Bool
  | .cstr s => !(s = "")
  | .carr _ => true
  | .cmap _ => true
  | .cfun _ => true
  | .cscalar b _ => b
  | .cabsent => false

/-- Line 71-74: a truthy value that is neither array-like, map nor function
is wrapped into the one-element array `[collection]`; the wrapped collection
is also what the callback receives as third argument. -/
def Collection.wrap {α : Type} : Collection α → Collection α
  | .cscalar _ x => .carr [x]
  | c => c

/-- The type of the callback `fn(a, b, collection)`.  Over a string or array
it is invoked as `fn(value, index, collection)` (line 79), otherwise as
`fn(key, value, collection)` (line 84). -/
def EachFn (α ρ : Type) : Type := EachArg α → EachArg α → Collection α → FnRes ρ

/-- The sequence of (first, second) argument pairs the two loops of `each`
(lines 77-81 and 83-86) feed to the callback, in visitation order. -/
def Collection.pairs {α : Type} : Collection α → List (EachArg α × EachArg α)
  | .cstr s => (s.toList.enum).map (fun p => (.astr (String.singleton p.2), .anum p.1))
  | .carr xs => (xs.enum).map (fun p => (.aval p.2, .anum p.1))
  | .cmap kvs => kvs.map (fun p => (.astr p.1, .aval p.2))
  | .cfun kvs => kvs.map (fun p => (.astr p.1, .aval p.2))
  | .cscalar _ x => [(.aval x, .anum 0)]
  | .cabsent => []

/-- The shared loop body of `each` (lines 77-81 / 83-86): invoke the callback
on each prepared argument pair; if it returns `Infinity` break immediately
(before the `result.push(r)` on line 80/85), otherwise push the returned
value. -/
def eachLoop {α ρ : Type} (f : EachFn α ρ) (c : Collection α) :
    List (EachArg α × EachArg α) → List ρ
  | [] => []
  | (a, b) :: rest =>
    match f a b c with
    | .stop => []
    | .val r => r :: eachLoop f c rest

/-- `each(collection, fn)` (lines 60-89).  Returns `none` (JavaScript
`undefined`) when `collection` is falsy or `fn` is absent (line 63),
otherwise the array of values returned by the callback. -/
def each {α ρ : Type} (c : Collection α) (fn : Option (EachFn α ρ)) : Option (List ρ) :=
  match fn with
  | none => none
  | some f =>
    if c.truthy then
      let c1 := c.wrap
      some (eachLoop f c1 c1.pairs)
    else none

/-! ## Model of the `$super` dispatcher installed by `makeSuper`
(src/jsface.js lines 94-127)

`makeSuper(child, parent)` installs on `child.prototype` the closure
`child.prototype.$super = function() {...}`.  The model below embeds one
invocation of that closure.

Member tables relevant to dispatch hold, per key, either a function
(identified by a numeric identity, since the code compares and calls
functions by reference) or a non-function value of which only truthiness
matters (`func = pa[name] || 0`, line 115, and `isFunction(func)`,
lines 118/121).

The binding `this.$super` of the receiver is the only state the closure
mutates; it is modelled by explicit state passing with values of an
arbitrary type `V`.  The invocation of the resolved function
(`func.apply(this, arguments)`, line 122) is modelled by a call semantics
`callSem : Nat → V → Except E (R × V)` giving, per function identity, its
result and its effect on the `this.$super` binding (a nested super-call may
mutate it); `Except` accounts for the target throwing. -/

/-- A member of a prototype (or singleton) table as inspected by the
dispatcher: a function with identity `id`, or a non-function datum of which
only truthiness is relevant. -/
inductive MVal where
  | mfn (id : Nat)
  | mdata (truthy : Bool)
deriving DecidableEq

/-- JavaScript truthiness of a member (functions are always truthy). -/
def MVal.truthy : MVal → Bool
  | .mfn _ => true
  | .mdata b => b

/-- Truthiness of `pa[name] || 0` (line 115): an absent member is falsy. -/
def mTruthyOpt (m : Option MVal) : Bool :=
  match m with
  | some v => v.truthy
  | none => false

/-- One entry of the `parent` array, as the dispatcher sees it after the
dereference on line 114 (`if (isClass(pa)) { pa = pa.prototype; }`):

* `table`     : the member table scanned by `pa[name]` — the prototype's own
  enumerable members if the parent is a class, the instance's own members if
  it is a singleton/instance;
* `superDisp` : the value of `pa.$super` (line 118) respectively
  `func.prototype.$super` (line 102) — the parent's own dispatcher binding;
* `isCls`     : the result of `isClass` on the original parent entry
  (lines 102 and 114);
* `ctorId`    : `some id` when the original parent entry is itself callable
  (a function with identity `id`, invoked by the constructor branch), `none`
  for plain instances. -/
structure PRef (V : Type) where
  table : List (String × MVal)
  superDisp : V
  isCls : Bool
  ctorId : Option Nat

/-- The static context of one installed dispatcher:
`protoTable` is `child.prototype`'s own enumerable member table (scanned on
lines 104-109 to recover the caller's name by reference identity),
`ctorId` the identity of `child.prototype.constructor` (line 100), and
`parent` the parent array, or `none` when `makeSuper` received a falsy
`parent` (lines 101, 103). -/
structure SuperCtx (V : Type) where
  protoTable : List (String × MVal)
  ctorId : Nat
  parent : Option (List (PRef V))

/-- Lines 104-109: recover the name of the currently executing method by
scanning `child.prototype` for the first member identical to the caller
(the `each` callback returns `Infinity` at the first hit). -/
def recoverName (tbl : List (String × MVal)) (caller : Nat) : Option String :=
  (tbl.find? (fun kv => kv.2 = MVal.mfn caller)).map Prod.fst

/-- The `while (len-- && !func)` loop of lines 111-116, operating on the
already-reversed parent list: take the first parent (scanning right-to-left
in declaration order) whose table holds a truthy member under `n`. -/
def superScanGo {V : Type} : List (PRef V) → String → Option (PRef V × MVal)
  | [], _ => none
  | p :: rest, n =>
    match lookupT p.table n with
    | some m => if m.truthy then some (p, m) else superScanGo rest n
    | none => superScanGo rest n

/-- Lines 111-116: search the parents in reverse declaration order
(`len = parent.length; while (len-- && !func) { pa = parent[len]; ... }`)
for the first truthy member named `n`. -/
def superScan {V : Type} (ps : List (PRef V)) (n : String) : Option (PRef V × MVal) :=
  superScanGo ps.reverse n

/-- Resolution performed by one dispatcher invocation (lines 100-119):
returns the identity of the function to invoke together with the value the
`this.$super` binding holds during that invocation, or `none` when nothing
is invoked.

* Constructor branch (lines 100-102): the caller is
  `child.prototype.constructor`; the candidate is `parent[0]` itself; if it
  is a class, `this.$super` is rebound to its prototype's dispatcher, and it
  is invoked exactly when it is a function.
* Method branch (lines 103-119): recover the caller's name (an unrecovered
  name is the property key `"undefined"`, since JavaScript stringifies the
  `undefined` index), scan the parents in reverse order, rebind
  `this.$super` to `pa.$super` and invoke when the member found is a
  function. -/
def resolveTarget {V : Type} (ctx : SuperCtx V) (caller : Nat) (sup0 : V) :
    Option (Nat × V) :=
  if caller = ctx.ctorId then
    match ctx.parent with
    | some (p :: _) =>
      match p.ctorId with
      | some f => some (f, if p.isCls then p.superDisp else sup0)
      | none => none
    | _ => none
  else
    match ctx.parent with
    | none => none
    | some ps =>
      let name := (recoverName ctx.protoTable caller).getD "undefined"
      match superScan ps name with
      | some (pa, .mfn f) => some (f, pa.superDisp)
      | _ => none

/-- One invocation of the `$super` closure (lines 95-126): `sup0` is the
`this.$super` binding at entry (saved into `supez`, line 97).  When a target
function is resolved it runs under the rebound binding; on normal return the
binding is restored to `supez` (line 123) and the target's result returned
(line 124); when nothing is resolved the call falls through returning
`undefined` (modelled `none`) with the binding untouched. -/
def dispatch {V R E : Type} (ctx : SuperCtx V) (caller : Nat)
    (callSem : Nat → V → Except E (R × V)) (sup0 : V) :
    Except E (Option R × V) :=
  match resolveTarget ctx caller sup0 with
  | none => .ok (none, sup0)
  | some (f, b) =>
    match callSem f b with
    | .ok (r, _) => .ok (some r, sup0)
    | .error e => .error e

/-! ## Model of `extend` and `Class` (src/jsface.js lines 132-189)
and of the `$ready` plugin (lines 192-212)

Values stored in member tables are modelled by `JVal`; values passed as
arguments to `Class` (which may additionally be classes, arrays or callable
functions) by `JRef`.  Conventions of the embedding:

* Member tables (`Table`) are association lists in property-creation order;
  assignment is `setKey` (update in place, append if new), matching
  JavaScript object semantics, so keys stay unique.
* A class is `ClazzV`: its own (static) table and its prototype's own
  enumerable table.  The implicit `prototype.constructor` back-reference is
  not listed in the table: it is non-enumerable in JavaScript for the plain
  constructor functions modelled here (so `each`/`for..in` never sees it)
  and every exclusion set used by the source contains `"constructor"` and
  `"prototype"`, so composition never copies or overwrites it; hence
  `isClass(clazz)` stays true throughout construction.
* Object identity (needed by the `$ready` registry's `pa === entry[0]`
  comparison, line 200) is a `Nat` carried by `jobj`/`jcls`/`jfnv`.
* Constructor functions are modelled with empty bodies (invoking one
  without `new` returns `undefined`; instances they create have no own
  properties).  `Class.overload` is never defined in this build, so line 180
  uses the plain constructor.  Functions used as values inside tables are
  the opaque `JVal.vfn`. -/

/-- A JavaScript value as stored in a member table. -/
inductive JVal where
  | undefV
  | vnum (n : Int)
  | vbool (b : Bool)
  | vstr (s : String)
  | vfn (id : Nat)
  | vobj (t : List (String × JVal))
  | superRef

/-- Member tables: own enumerable properties in creation order. -/
abbrev Table : Type := List (String × JVal)

/-- JavaScript truthiness of a `JVal`. -/
def truthyJ : JVal → Bool
  | .undefV => false
  | .vnum n => !(n = 0)
  | .vbool b => b
  | .vstr s => !(s = "")
  | .vfn _ => true
  | .vobj _ => true
  | .superRef => true

/-- `isFunction` (lines 36-38) on a table value: `vfn` and the installed
dispatcher are functions. -/
def isFunctionJ : JVal → Bool
  | .vfn _ => true
  | .superRef => true
  | _ => false

/-- A class under construction or used as a parent: own (static) member
table and prototype member table. -/
structure ClazzV where
  statics : Table
  proto : Table

/-- A JavaScript value in argument position of `Class`:
a plain value, an object with identity, a class with identity, an array, or
a callable function `jfnv` whose invocation yields `f ()`. -/
inductive JRef where
  | jv (v : JVal)
  | jobj (id : Nat) (t : Table)
  | jcls (id : Nat) (c : ClazzV)
  | jarr (xs : List JRef)
  | jfnv (id : Nat) (f : Unit → JRef)

/-- Truthiness of an argument value: objects, classes, arrays and functions
are truthy. -/
def truthyR : JRef → Bool
  | .jv v => truthyJ v
  | _ => true

/-- `isArray` (lines 29-31). -/
def isArrayR : JRef → Bool
  | .jarr _ => true
  | _ => false

/-- Object identity, for the reference comparison `pa === entry[0]`
(line 200): primitives have none. -/
def refIdJ : JRef → Option Nat
  | .jobj i _ => some i
  | .jcls i _ => some i
  | .jfnv i _ => some i
  | .jv _ => none
  | .jarr _ => none

/-- `isMap` (lines 22-24) on an argument, returning the map's table. -/
def asMapR : JRef → Option Table
  | .jobj _ t => some t
  | .jv (.vobj t) => some t
  | _ => none

/-- `isMap` as a boolean. -/
def isMapR (r : JRef) : Bool := (asMapR r).isSome

/-- Lines 163-170 of `Class`: argument fix-up.
`if (!api) { parent = (api = parent, 0); }` swaps a single argument into
`api` and zeroes `parent`; `api = api || {}` defaults a falsy api to a fresh
empty map; `parent = (parent && !isArray(parent)) ? [parent] : parent`
wraps a truthy non-array parent; `api = isFunction(api) ? api() : api`
invokes a functional api (invoking a modelled constructor, whose body is
empty, yields `undefined`).  Returns the resolved `(parent, api)` pair. -/
def resolveArgs (parent api : JRef) : JRef × JRef :=
  let s := if truthyR api then (parent, api) else (JRef.jv (.vnum 0), parent)
  let api1 := if truthyR s.2 then s.2 else JRef.jobj 0 []
  let parent1 := if truthyR s.1 && !(isArrayR s.1) then JRef.jarr [s.1] else s.1
  let api2 :=
    match api1 with
    | .jfnv _ f => f ()
    | .jcls _ _ => JRef.jv .undefV
    | x => x
  (parent1, api2)

/-- JavaScript assignment `t[k] = v` on an object's own table: overwrite in
place if the key exists, append otherwise. -/
def setKey : Table → String → JVal → Table
  | [], k, v => [(k, v)]
  | (k', v') :: rest, k, v =>
    if k' = k then (k', v) :: rest else (k', v') :: setKey rest k v

/-- The `copier` callback of `extend` (lines 144-149) folded over the own
enumerable pairs of one source object, updating one destination table:
each pair is copied unless its key is in the exclusion set. -/
def copyPairsT (ign : List String) : Table → Table → Table
  | t, [] => t
  | t, (k, v) :: rest =>
    copyPairsT ign (if k ∈ ign then t else setKey t k v) rest

/- `extend(object, subject, ignoredKeys)` (lines 132-157) when `object` is
a class (`iClass` true, so `copier` writes each member to the class and
mirrors it onto `object.prototype`, line 147).  Cases on the subject:

* array (line 133): recurse over the elements in order;
* class: `isMap(subject)` is false for a function, so line 152 copies
  nothing; line 153 copies `subject.prototype`'s own enumerable pairs
  through `copier` (statics and prototype); line 156 then re-copies
  `subject.prototype` onto `object.prototype` via the recursive
  `extend(oPrototype, subject.prototype, ignoredKeys)`, whose destination is
  a plain object and whose subject is a map — a plain pair-copy;
* map (a `jobj` or a `vobj` value): line 152 copies its pairs through
  `copier`;
* anything else (including a bare `jfnv`, which `isClass` accepts but whose
  enumerable tables are empty): no member is copied. -/
mutual

/-- See the comment directly above this mutual block. -/
def extendC (ign : List String) : ClazzV → JRef → ClazzV
  | c, .jarr xs => extendCList ign c xs
  | c, .jcls _ cp =>
    let c1 : ClazzV := ⟨copyPairsT ign c.statics cp.proto, copyPairsT ign c.proto cp.proto⟩
    ⟨c1.statics, copyPairsT ign c1.proto cp.proto⟩
  | c, .jobj _ t => ⟨copyPairsT ign c.statics t, copyPairsT ign c.proto t⟩
  | c, .jv (.vobj t) => ⟨copyPairsT ign c.statics t, copyPairsT ign c.proto t⟩
  | c, _ => c

/-- The array branch of `extend` (lines 133-137) for a class destination:
`each(subject, function(sub) { extend(object, sub, ignoredKeys); })`. -/
def extendCList (ign : List String) : ClazzV → List JRef → ClazzV
  | c, [] => c
  | c, p :: rest => extendCList ign (extendC ign c p) rest

end

/- `extend` when the destination is a plain object (`iClass` false: no
prototype mirroring on line 147, and line 156 does not fire).  Same case
analysis on the subject as `extendC`. -/
mutual

/-- See the comment directly above this mutual block. -/
def extendO (ign : List String) : Table → JRef → Table
  | t, .jarr xs => extendOList ign t xs
  | t, .jcls _ cp => copyPairsT ign t cp.proto
  | t, .jobj _ s => copyPairsT ign t s
  | t, .jv (.vobj s) => copyPairsT ign t s
  | t, _ => t

/-- The array branch of `extend` for a plain-object destination. -/
def extendOList (ign : List String) : Table → List JRef → Table
  | t, [] => t
  | t, p :: rest => extendOList ign (extendO ign t p) rest

end

/-! ### The `$ready` plugin (lines 192-212) -/

/-- One recorded callback invocation: `entry[1].call(pa, clazz, api, parent)`
on line 201 has receiver `pa` (the matching parent) and first argument
`clazz`; `r.call(clazz, clazz, api, parent)` on line 208 has receiver and
first argument `clazz`.  (`api` and `parent` are also passed; they are
constant over one `Class` call and omitted from the record.) -/
structure Invocation where
  receiver : JRef
  cb : JVal
  arg : JRef

/-- The inner `each(parent, ...)` of the registry scan (lines 199-204) for
one registry entry `(eid, cb)`: walk the parent list with the running
shared counter `cnt`; invoke the callback on each parent identical to the
entry's class; `if (count++ >= len) return Infinity` stops the walk once
the counter has reached `len` (comparison before increment, stop after the
invocation check). -/
def scanInner (cR : JRef) (eid : Nat) (cb : JVal) (len : Nat) :
    List JRef → Nat → List Invocation → Nat × List Invocation
  | [], cnt, acc => (cnt, acc)
  | pa :: rest, cnt, acc =>
    let acc1 := if refIdJ pa = some eid then acc ++ [⟨pa, cb, cR⟩] else acc
    if len ≤ cnt then (cnt + 1, acc1)
    else scanInner cR eid cb len rest (cnt + 1) acc1

/-- The registry scan of the `$ready` plugin (lines 194-205): `count` starts
at 0 and `len = parent ? parent.length : 0`; the outer `each` walks every
registry entry (its callback returns the inner `each`'s array, never the
stop sentinel); the inner walk shares the single `count` across all
entries.  When `parent` is falsy the inner `each` no-ops and nothing is
invoked.  Returns the recorded invocations in order. -/
def readyScan (readyFns : List (Nat × JVal)) (parentOpt : Option (List JRef))
    (cR : JRef) : List Invocation :=
  match parentOpt with
  | none => []
  | some ps =>
    (readyFns.foldl
      (fun st e => scanInner cR e.1 e.2 ps.length ps st.1 st.2)
      (0, [])).2

/-- The exclusion set built by `Class` (line 167 plus line 177, which adds
every plugin key; `$ready` is the only built-in plugin). -/
def ignoredKeysClass : List String :=
  ["constructor", "$singleton", "$statics", "prototype", "$ready"]

/-- The composition pipeline of `Class` for a non-singleton product
(lines 180-186): start from the bare constructor function (empty own and
prototype tables); extend every parent onto the class (line 182); extend
the api map onto `clazz.prototype` — a plain object, so no mirroring —
(line 183); extend `api.$statics` onto the class (line 184, mirroring onto
the prototype since the destination is a class); finally `makeSuper`
installs the `$super` dispatcher on the prototype (line 186, modelled by
the opaque value `superRef`). -/
def composeCls (parents : List JRef) (A : Table) (staticsV : JVal) : ClazzV :=
  let ign := ignoredKeysClass
  let c0 := extendCList ign ⟨[], []⟩ parents
  let c1 : ClazzV := ⟨c0.statics, copyPairsT ign c0.proto A⟩
  let c2 := extendC ign c1 (.jv staticsV)
  ⟨c2.statics, setKey c2.proto "$super" JVal.superRef⟩

/-- The composition pipeline of `Class` for a singleton product
(lines 180-186 with `singleton` truthy): the product is a plain object
`{}`; parents, api and statics are extended onto it without prototype
mirroring, and no `$super` dispatcher is installed. -/
def composeSingleton (parents : List JRef) (A : Table) (staticsV : JVal) : Table :=
  let ign := ignoredKeysClass
  let t0 := extendOList ign [] parents
  let t1 := copyPairsT ign t0 A
  extendO ign t1 (.jv staticsV)

/-- `Class(parent, api)` (lines 162-189) together with the `$ready` plugin
call on line 187.  `cid` is the identity of the object created for the new
class (line 180; a fresh identity at each call), `readyFns` the current
registry.  Returns the created class (or singleton object), the callback
invocations performed, and the registry after the call — or the
`"Invalid params"` throw of line 171.

Construction order, as in the source: resolve the arguments (lines 163-170);
validate the api (line 171); compose the parents (line 182: for a falsy
parent `each` no-ops), then the api map onto the prototype — or onto the
singleton object itself — (line 183), then `api.$statics` onto the class
(line 184); install `$super` on the prototype unless a singleton (line 186);
finally run the `$ready` plugin (line 187): scan the registry against the
parents, then invoke and register `api.$ready` when it is a function
(lines 207-210). -/
def Class (cid : Nat) (readyFns : List (Nat × JVal)) (parent api : JRef) :
    Except String (JRef × List Invocation × List (Nat × JVal)) :=
  let pa := resolveArgs parent api
  match asMapR pa.2 with
  | none => .error "Invalid params"
  | some A =>
    let singleton := truthyJ ((lookupT A "$singleton").getD .undefV)
    let staticsV := (lookupT A "$statics").getD .undefV
    let parentList : Option (List JRef) :=
      match pa.1 with
      | .jarr xs => some xs
      | _ => none
    let clazzRef :=
      if singleton then JRef.jobj cid (composeSingleton (parentList.getD []) A staticsV)
      else JRef.jcls cid (composeCls (parentList.getD []) A staticsV)
    let scanInvs := readyScan readyFns parentList clazzRef
    let rV := (lookupT A "$ready").getD .undefV
    if isFunctionJ rV then
      .ok (clazzRef, scanInvs ++ [⟨clazzRef, rV, clazzRef⟩], readyFns ++ [(cid, rV)])
    else
      .ok (clazzRef, scanInvs, readyFns)

/-- Reading member `k` on an instance of the non-singleton class `c`: the
constructors modelled here assign no own properties, so the lookup falls
through to `c.prototype` and then to `undefined`. -/
def instanceGet (c : ClazzV) (k : String) : JVal :=
  (lookupT c.proto k).getD .undefV

/-- The keys of `api.$statics` when it is a map, else none — the keys whose
final prototype value the statics pass overwrites. -/
def staticsKeys (A : Table) : List String :=
  match (lookupT A "$statics").getD .undefV with
  | .vobj s => s.map Prod.fst
  | _ => []

/-! ## Helper lemmas -/

theorem lookupT_setKey_self (t : Table) (k : String) (v : JVal) :
    lookupT (setKey t k v) k = some v := by
  induction t with
  | nil => simp [setKey, lookupT]
  | cons kv rest ih =>
    rcases kv with ⟨k1, v1⟩
    by_cases h : k1 = k
    · subst h; simp [setKey, lookupT]
    · simp only [setKey, h, if_false, lookupT]
      simpa [h] using ih

theorem lookupT_setKey_other (t : Table) (k k' : String) (v : JVal) (h : k' ≠ k) :
    lookupT (setKey t k' v) k = lookupT t k := by
  induction t with
  | nil => simp [setKey, lookupT, h]
  | cons kv rest ih =>
    rcases kv with ⟨k1, v1⟩
    by_cases h2 : k1 = k'
    · subst h2
      have h3 : k1 ≠ k := h
      simp [setKey, lookupT, h3]
    · simp only [setKey, h2, if_false, lookupT]
      by_cases h3 : k1 = k
      · simp [h3]
      · simpa [h3] using ih

theorem lookupT_copyPairsT_not_mem (ign : List String) (src : Table) (k : String)
    (h : k ∉ src.map Prod.fst) :
    ∀ t : Table, lookupT (copyPairsT ign t src) k = lookupT t k := by
  induction src with
  | nil => intro t; simp [copyPairsT]
  | cons kv rest ih =>
    intro t
    rcases kv with ⟨k1, v1⟩
    have hk : k1 ≠ k := by
      intro hcontra
      exact h (by simp [hcontra])
    have hrest : k ∉ rest.map Prod.fst := by
      intro hcontra
      exact h (by simp [hcontra])
    by_cases hig : k1 ∈ ign
    · simp only [copyPairsT, if_pos hig]
      exact ih hrest t
    · simp only [copyPairsT, if_neg hig]
      rw [ih hrest, lookupT_setKey_other t k k1 v1 hk]

theorem lookupT_copyPairsT_mem (ign : List String) (src : Table) (k : String) (v : JVal)
    (hk : k ∉ ign) :
    (src.map Prod.fst).Nodup → (k, v) ∈ src →
    ∀ t : Table, lookupT (copyPairsT ign t src) k = some v := by
  induction src with
  | nil => intro _ hmem; simp at hmem
  | cons kv rest ih =>
    intro hnd hmem t
    rcases kv with ⟨k1, v1⟩
    rw [List.map_cons] at hnd
    have hnd1 : k1 ∉ rest.map Prod.fst := (List.nodup_cons.mp hnd).1
    have hnd2 : (rest.map Prod.fst).Nodup := (List.nodup_cons.mp hnd).2
    rcases List.mem_cons.mp hmem with hhead | htail
    · injection hhead with h1 h2
      subst h1; subst h2
      simp only [copyPairsT, if_neg hk]
      rw [lookupT_copyPairsT_not_mem ign rest k hnd1, lookupT_setKey_self]
    · by_cases hig : k1 ∈ ign
      · simp only [copyPairsT, if_pos hig]
        exact ih hnd2 htail t
      · simp only [copyPairsT, if_neg hig]
        exact ih hnd2 htail _

/-! ## Claim C9 — `each` on empty and absent inputs -/

/-- C9: `each([], fn)` and `each({}, fn)` return an empty sequence without
invoking `fn` (the result does not depend on `fn` at all), while
`each(undefined, fn)` and `each(collection, undefined)` return no result
(`none`, JavaScript `undefined`) and raise nothing (the model is total and
the embedded code has no throw site). -/
theorem C9_each_trivial {α ρ : Type} :
    (∀ f : EachFn α ρ, each (Collection.carr ([] : List α)) (some f) = some ([] : List ρ)) ∧
    (∀ f : EachFn α ρ, each (Collection.cmap ([] : List (String × α))) (some f) = some ([] : List ρ)) ∧
    (∀ f : EachFn α ρ, each (Collection.cabsent : Collection α) (some f) = (none : Option (List ρ))) ∧
    (∀ c : Collection α, each c (none : Option (EachFn α ρ)) = none) :=
  ⟨fun _ => rfl, fun _ => rfl, fun _ => rfl, fun _ => rfl⟩

/-! ## Claim C3 — early termination of `each` -/

/-- C3, counterexample: on a one-element collection whose only invocation
returns the stop sentinel, `each` returns the EMPTY sequence.  The claim
states that the returned sequence contains the value returned by the
callback for every element actually visited "including the value returned
by the terminating invocation"; one element was visited, so the claim
requires a one-element sequence, but line 79 of the source breaks out of
the loop before the `result.push(r)` of line 80, so the terminating
invocation's value is dropped. -/
theorem C3_counterexample :
    each (Collection.carr [(0 : Nat)]) (some (fun _ _ _ => (FnRes.stop : FnRes Nat)))
      = some ([] : List Nat) ∧
    (each (Collection.carr [(0 : Nat)])
        (some (fun _ _ _ => (FnRes.stop : FnRes Nat)))).map List.length = some 0 :=
  ⟨rfl, rfl⟩

/-- C3, amended: if the callback returns the stop sentinel on some visited
element, iteration halts immediately after that invocation (the elements
`qs` after it are never visited) and the returned sequence collects the
values returned by the callback for the elements visited before the
terminating invocation, in visitation order, EXCLUDING the value returned
by the terminating invocation.  The second conjunct records that `each`
runs exactly this loop on the prepared argument pairs of the (wrapped)
collection. -/
theorem C3_stop_amended {α ρ : Type} (f : EachFn α ρ) (c : Collection α)
    (ps qs : List (EachArg α × EachArg α)) (a b : EachArg α)
    (hpre : ∀ p ∈ ps, f p.1 p.2 c ≠ FnRes.stop) (hstop : f a b c = FnRes.stop) :
    eachLoop f c (ps ++ (a, b) :: qs) = ps.filterMap (fun p => (f p.1 p.2 c).valOf) ∧
    ∀ (c1 : Collection α) (g : EachFn α ρ),
      each c1 (some g) =
        if c1.truthy then some (eachLoop g c1.wrap c1.wrap.pairs) else none := by
  constructor
  · induction ps with
    | nil => simp [eachLoop, hstop]
    | cons p rest ih =>
      have hp : f p.1 p.2 c ≠ FnRes.stop := hpre p (List.mem_cons_self p rest)
      have hrest : ∀ q ∈ rest, f q.1 q.2 c ≠ FnRes.stop :=
        fun q hq => hpre q (List.mem_cons_of_mem p hq)
      rcases p with ⟨pa, pb⟩
      cases hf : f pa pb c with
      | stop => exact absurd hf hp
      | val r =>
        simp only [List.cons_append, eachLoop, hf, List.filterMap_cons, FnRes.valOf]
        exact congrArg (List.cons r) (ih hrest)
  · intro c1 g
    rfl

/-- C3 witness: a concrete run of the amended statement.  The collection is
the array `[1, 2, 3]`; the callback stops on value 2; the result collects
only the value returned for element 1. -/
theorem C3_witness :
    (∀ p ∈ [((EachArg.aval 1 : EachArg Nat), (EachArg.anum 0 : EachArg Nat))],
      (fun (x : EachArg Nat) (_ : EachArg Nat) (_ : Collection Nat) =>
        match x with
        | .aval 2 => (FnRes.stop : FnRes Nat)
        | .aval n => FnRes.val n
        | _ => FnRes.val 0) p.1 p.2 (Collection.carr [1, 2, 3]) ≠ FnRes.stop) ∧
    eachLoop
      (fun (x : EachArg Nat) (_ : EachArg Nat) (_ : Collection Nat) =>
        match x with
        | .aval 2 => (FnRes.stop : FnRes Nat)
        | .aval n => FnRes.val n
        | _ => FnRes.val 0)
      (Collection.carr [1, 2, 3])
      ([(EachArg.aval 1, EachArg.anum 0)] ++
        (EachArg.aval 2, EachArg.anum 1) :: [(EachArg.aval 3, EachArg.anum 2)])
      = [1] := by
  refine ⟨by decide, ?_⟩
  have h := C3_stop_amended
    (fun (x : EachArg Nat) (_ : EachArg Nat) (_ : Collection Nat) =>
      match x with
      | .aval 2 => (FnRes.stop : FnRes Nat)
      | .aval n => FnRes.val n
      | _ => FnRes.val 0)
    (Collection.carr [1, 2, 3])
    [(EachArg.aval 1, EachArg.anum 0)] [(EachArg.aval 3, EachArg.anum 2)]
    (EachArg.aval 2) (EachArg.anum 1) (by decide) (by decide)
  exact h.1.trans (by decide)

/-! ## Claims C4, C5, C6 — the `$super` dispatcher -/

theorem superScanGo_none {V : Type} (n : String) :
    ∀ ps : List (PRef V), (∀ p ∈ ps, lookupT p.table n = none) →
      superScanGo ps n = none := by
  intro ps
  induction ps with
  | nil => intro _; rfl
  | cons p rest ih =>
    intro h
    have hp := h p (List.mem_cons_self p rest)
    have hrest := fun q hq => h q (List.mem_cons_of_mem p hq)
    simp only [superScanGo, hp]
    exact ih hrest

theorem superScanGo_skip {V : Type} (n : String) :
    ∀ (l1 l2 : List (PRef V)), (∀ p ∈ l1, mTruthyOpt (lookupT p.table n) = false) →
      superScanGo (l1 ++ l2) n = superScanGo l2 n := by
  intro l1
  induction l1 with
  | nil => intro l2 _; rfl
  | cons p rest ih =>
    intro l2 h
    have hp := h p (List.mem_cons_self p rest)
    have hrest := fun q hq => h q (List.mem_cons_of_mem p hq)
    rw [List.cons_append]
    cases hl : lookupT p.table n with
    | none => simp only [superScanGo, hl]; exact ih l2 hrest
    | some m =>
      have hm : m.truthy = false := by simpa [mTruthyOpt, hl] using hp
      simp only [superScanGo, hl, hm, if_false]
      exact ih l2 hrest

/-- C4: invoked from a named instance method (the caller is not the
constructor), the dispatcher searches the parents in reverse declaration
order: whatever the earlier parents `qs` contain, if every parent listed
after `p` has no truthy member under the caller's recovered name `n` and
`p`'s table holds the function `f` under `n`, the dispatcher resolves `f`
(with `p`'s own dispatcher as the transient binding) and invokes it.  In
particular, with parents `[P1, P2]` both defining `m`, the super call
resolves to `P2`'s `m` before `P1`'s (witness below). -/
theorem C4_reverse_order {V R E : Type} (ctx : SuperCtx V) (caller f : Nat)
    (n : String) (qs rs : List (PRef V)) (p : PRef V)
    (callSem : Nat → V → Except E (R × V)) (sup0 : V)
    (hc : ¬ caller = ctx.ctorId)
    (hp : ctx.parent = some (qs ++ p :: rs))
    (hn : (recoverName ctx.protoTable caller).getD "undefined" = n)
    (hrs : ∀ q ∈ rs, mTruthyOpt (lookupT q.table n) = false)
    (hm : lookupT p.table n = some (MVal.mfn f)) :
    resolveTarget ctx caller sup0 = some (f, p.superDisp) ∧
    dispatch ctx caller callSem sup0 =
      (match callSem f p.superDisp with
       | .ok (r, _) => .ok (some r, sup0)
       | .error e => .error e) := by
  have hscan : superScan (qs ++ p :: rs) n = some (p, MVal.mfn f) := by
    unfold superScan
    have hrev : (qs ++ p :: rs).reverse = rs.reverse ++ p :: qs.reverse := by
      simp
    rw [hrev]
    rw [superScanGo_skip n rs.reverse (p :: qs.reverse)
      (fun q hq => hrs q (List.mem_reverse.mp hq))]
    simp [superScanGo, hm, MVal.truthy]
  have hres : resolveTarget ctx caller sup0 = some (f, p.superDisp) := by
    unfold resolveTarget
    rw [if_neg hc, hp]
    simp only [hn, hscan]
  refine ⟨hres, ?_⟩
  unfold dispatch
  rw [hres]

/-- C4 witness: parents `[P1, P2]` (in that order) both define `m` as a
function; the dispatcher invoked from method `m` of the child resolves to
`P2`'s implementation (function identity 2, binding 12), not `P1`'s. -/
theorem C4_witness :
    resolveTarget
      (⟨[("m", MVal.mfn 5)], 0,
        some [⟨[("m", MVal.mfn 1)], 11, true, some 21⟩,
              ⟨[("m", MVal.mfn 2)], 12, true, some 22⟩]⟩ : SuperCtx Nat)
      5 7 = some (2, 12) ∧
    dispatch
      (⟨[("m", MVal.mfn 5)], 0,
        some [⟨[("m", MVal.mfn 1)], 11, true, some 21⟩,
              ⟨[("m", MVal.mfn 2)], 12, true, some 22⟩]⟩ : SuperCtx Nat)
      5 (fun g b => (.ok (g * 100 + b, b) : Except Unit (Nat × Nat))) 7
      = .ok (some 212, 7) := by
  have h := C4_reverse_order (V := Nat) (R := Nat) (E := Unit)
    ⟨[("m", MVal.mfn 5)], 0,
      some [⟨[("m", MVal.mfn 1)], 11, true, some 21⟩,
            ⟨[("m", MVal.mfn 2)], 12, true, some 22⟩]⟩
    5 2 "m" [⟨[("m", MVal.mfn 1)], 11, true, some 21⟩] []
    ⟨[("m", MVal.mfn 2)], 12, true, some 22⟩
    (fun g b => .ok (g * 100 + b, b)) 7
    (by decide) rfl rfl (by simp) rfl
  exact ⟨h.1, h.2⟩

/-- C5: when no ancestor target is resolved — the parent list is absent, or
no parent's table defines the caller's recovered method name — one
dispatcher invocation is a no-op: it raises no error and returns no result
(`.ok (none, ...)`), and the `this.$super` binding is left untouched. -/
theorem C5_noop {V R E : Type} (ctx : SuperCtx V) (caller : Nat)
    (callSem : Nat → V → Except E (R × V)) (sup0 : V)
    (h : ctx.parent = none ∨
      (¬ caller = ctx.ctorId ∧ ∃ ps, ctx.parent = some ps ∧
        ∀ p ∈ ps,
          lookupT p.table ((recoverName ctx.protoTable caller).getD "undefined") = none)) :
    dispatch ctx caller callSem sup0 = .ok (none, sup0) := by
  have hres : resolveTarget ctx caller sup0 = none := by
    rcases h with hnone | ⟨hc, ps, hps, hlook⟩
    · unfold resolveTarget
      rw [hnone]
      by_cases hcc : caller = ctx.ctorId <;> simp [hcc]
    · unfold resolveTarget
      rw [if_neg hc, hps]
      have : superScan ps ((recoverName ctx.protoTable caller).getD "undefined") = none := by
        unfold superScan
        exact superScanGo_none _ ps.reverse (fun p hp => hlook p (List.mem_reverse.mp hp))
      simp [this]
  unfold dispatch
  rw [hres]

/-- C5 witness: a dispatcher with an absent parent list, and one whose two
parents define nothing under the caller's name, both no-op. -/
theorem C5_witness :
    dispatch (⟨[("m", MVal.mfn 5)], 0, none⟩ : SuperCtx Nat) 5
      (fun g b => (.ok (g + b, b) : Except Unit (Nat × Nat))) 3 = .ok (none, 3) ∧
    dispatch
      (⟨[("m", MVal.mfn 5)], 0,
        some [⟨[("x", MVal.mfn 1)], 11, true, some 21⟩]⟩ : SuperCtx Nat) 5
      (fun g b => (.ok (g + b, b) : Except Unit (Nat × Nat))) 3 = .ok (none, 3) := by
  constructor
  · exact C5_noop _ 5 _ 3 (Or.inl rfl)
  · exact C5_noop _ 5 _ 3
      (Or.inr ⟨by decide, [⟨[("x", MVal.mfn 1)], 11, true, some 21⟩], rfl, by decide⟩)

/-- C6: whenever a dispatcher invocation resolves a target function `f` with
transient binding `b` and the target call returns normally with result `r`,
the dispatcher returns the target's result and the `this.$super` binding is
restored to exactly the binding `sup0` that was active before the
invocation.  Moreover the transient binding is the resolved ancestor's own
dispatcher: in the method branch it is `pa.$super` of the parent the
reverse scan resolved, and in the constructor branch with a class first
parent it is that parent's prototype dispatcher. -/
theorem C6_rebind_restore {V R E : Type} (ctx : SuperCtx V) (caller f : Nat) (b : V)
    (callSem : Nat → V → Except E (R × V)) (sup0 : V) (r : R) (s1 : V)
    (hres : resolveTarget ctx caller sup0 = some (f, b))
    (hcall : callSem f b = .ok (r, s1)) :
    dispatch ctx caller callSem sup0 = .ok (some r, sup0) ∧
    (∀ ps pa m, ¬ caller = ctx.ctorId → ctx.parent = some ps →
      superScan ps ((recoverName ctx.protoTable caller).getD "undefined") = some (pa, m) →
      b = pa.superDisp) ∧
    (∀ p rest, caller = ctx.ctorId → ctx.parent = some (p :: rest) → p.isCls = true →
      b = p.superDisp) := by
  refine ⟨?_, ?_, ?_⟩
  · simp only [dispatch, hres, hcall]
  · intro ps pa m hc hps hscan
    unfold resolveTarget at hres
    rw [if_neg hc, hps] at hres
    simp only [hscan] at hres
    cases m with
    | mfn g =>
      simp only [Option.some.injEq, Prod.mk.injEq] at hres
      exact hres.2.symm
    | mdata tr => simp at hres
  · intro p rest hc hps hcls
    unfold resolveTarget at hres
    rw [if_pos hc, hps] at hres
    cases hct : p.ctorId with
    | none => simp [hct] at hres
    | some g =>
      simp only [hct, hcls, if_true, Option.some.injEq, Prod.mk.injEq] at hres
      exact hres.2.symm

/-- C6 witness: a concrete resolution whose target mutates the binding to 99
during its run; the dispatcher still restores the entry binding 7 and
returns the target's result. -/
theorem C6_witness :
    dispatch
      (⟨[("m", MVal.mfn 5)], 0,
        some [⟨[("m", MVal.mfn 2)], 12, true, some 21⟩]⟩ : SuperCtx Nat)
      5 (fun g b => (.ok (g * 1000 + b, 99) : Except Unit (Nat × Nat))) 7
      = .ok (some 2012, 7) := by
  have h := C6_rebind_restore (V := Nat) (R := Nat) (E := Unit)
    ⟨[("m", MVal.mfn 5)], 0, some [⟨[("m", MVal.mfn 2)], 12, true, some 21⟩]⟩
    5 2 12 (fun g b => .ok (g * 1000 + b, 99)) 7 2012 99 rfl rfl
  exact h.1

/-! ## Claim C1 — `Class` raises exactly on a non-map resolved api -/

/-- C1: `Class(parents, api)` throws the `"Invalid params"` signal if and
only if the resolved api — after the single-argument shuffle of line 163,
the `api || {}` default of line 164 and the invocation of a functional api
on line 170 — is not map-like (line 171); when the resolved api is
map-like, construction does not raise (the model's only error site is the
single `throw` of the source). -/
theorem C1_invalid_params (cid : Nat) (readyFns : List (Nat × JVal)) (parent api : JRef) :
    (Class cid readyFns parent api = .error "Invalid params" ↔
      isMapR (resolveArgs parent api).2 = false) ∧
    (isMapR (resolveArgs parent api).2 = true →
      ∀ e, ¬ Class cid readyFns parent api = .error e) := by
  cases h : asMapR (resolveArgs parent api).2 with
  | none =>
    refine ⟨⟨fun _ => by simp [isMapR, h], fun _ => by simp [Class, h]⟩, fun htrue => ?_⟩
    simp [isMapR, h] at htrue
  | some A =>
    have hnoerr : ∀ e, ¬ Class cid readyFns parent api = .error e := by
      intro e hcontra
      simp only [Class, h] at hcontra
      split at hcontra
      · exact Except.noConfusion hcontra
      · exact Except.noConfusion hcontra
    exact ⟨⟨fun hc => absurd hc (hnoerr _), fun hf => absurd hf (by simp [isMapR, h])⟩,
      fun _ => hnoerr⟩

/-- C1 witness: `Class(undefined, 5)` resolves api to the number 5 and
throws; `Class(apiMap)` (single-argument form) resolves the map and does
not throw. -/
theorem C1_witness :
    Class 0 [] (.jv .undefV) (.jv (.vnum 3)) = .error "Invalid params" ∧
    isMapR (resolveArgs (.jobj 5 [("a", JVal.vnum 1)]) (.jv .undefV)).2 = true ∧
    ¬ Class 0 [] (.jobj 5 [("a", JVal.vnum 1)]) (.jv .undefV) = .error "Invalid params" :=
  ⟨(C1_invalid_params 0 [] (.jv .undefV) (.jv (.vnum 3))).1.mpr rfl, rfl,
    (C1_invalid_params 0 [] (.jobj 5 [("a", JVal.vnum 1)]) (.jv .undefV)).2 rfl "Invalid params"⟩

/-! ## Claims C7 and C8 — composition precedence -/

/-- Unfolding of `Class` on a parent array and an api map: the argument
fix-up leaves both untouched, the api is a map, and construction reaches
composition and the `$ready` plugin. -/
theorem Class_jarr_jobj (cid : Nat) (readyFns : List (Nat × JVal)) (parents : List JRef)
    (aid : Nat) (A : Table) :
    Class cid readyFns (.jarr parents) (.jobj aid A) =
      (let ref := if truthyJ ((lookupT A "$singleton").getD .undefV)
          then JRef.jobj cid (composeSingleton parents A ((lookupT A "$statics").getD .undefV))
          else JRef.jcls cid (composeCls parents A ((lookupT A "$statics").getD .undefV))
       let scanInvs := readyScan readyFns (some parents) ref
       let rV := (lookupT A "$ready").getD .undefV
       if isFunctionJ rV then
         .ok (ref, scanInvs ++ [⟨ref, rV, ref⟩], readyFns ++ [(cid, rV)])
       else .ok (ref, scanInvs, readyFns)) := rfl

/-- A non-singleton api yields the non-singleton composition result. -/
theorem Class_nonsingleton_ok (cid : Nat) (readyFns : List (Nat × JVal))
    (parents : List JRef) (aid : Nat) (A : Table)
    (hsing : truthyJ ((lookupT A "$singleton").getD .undefV) = false) :
    ∃ invs reg,
      Class cid readyFns (.jarr parents) (.jobj aid A)
        = .ok (.jcls cid (composeCls parents A ((lookupT A "$statics").getD .undefV)),
            invs, reg) := by
  cases hf : isFunctionJ ((lookupT A "$ready").getD .undefV) with
  | false =>
    exact ⟨readyScan readyFns (some parents)
        (.jcls cid (composeCls parents A ((lookupT A "$statics").getD .undefV))),
      readyFns, by rw [Class_jarr_jobj]; simp [hsing, hf]⟩
  | true =>
    exact ⟨readyScan readyFns (some parents)
        (.jcls cid (composeCls parents A ((lookupT A "$statics").getD .undefV)))
        ++ [⟨.jcls cid (composeCls parents A ((lookupT A "$statics").getD .undefV)),
            (lookupT A "$ready").getD .undefV,
            .jcls cid (composeCls parents A ((lookupT A "$statics").getD .undefV))⟩],
      readyFns ++ [(cid, (lookupT A "$ready").getD .undefV)],
      by rw [Class_jarr_jobj]; simp [hsing, hf]⟩

/-- The statics pass (line 184) leaves a key alone — on both the class and
its prototype — when `$statics` is not a map holding that key. -/
theorem extendC_statics_skip (ign : List String) (c : ClazzV) (sv : JVal) (k : String)
    (hst : ∀ s, sv = JVal.vobj s → k ∉ s.map Prod.fst) :
    lookupT (extendC ign c (.jv sv)).proto k = lookupT c.proto k ∧
    lookupT (extendC ign c (.jv sv)).statics k = lookupT c.statics k := by
  cases sv with
  | vobj s =>
    simp only [extendC]
    exact ⟨lookupT_copyPairsT_not_mem ign s k (hst s rfl) _,
      lookupT_copyPairsT_not_mem ign s k (hst s rfl) _⟩
  | undefV => simp [extendC]
  | vnum n => simp [extendC]
  | vbool b => simp [extendC]
  | vstr s => simp [extendC]
  | vfn i => simp [extendC]
  | superRef => simp [extendC]

/-- C7, counterexample: the claim says the members of `$statics` are copied
"onto the class itself (not its instances)".  But for a non-singleton class
the destination of line 184's `extend` is the class, so the `copier` of
lines 144-149 mirrors every copied static onto `clazz.prototype`
(line 147), where it is applied after (and therefore over) the api's own
members.  With api `{m: 2, $statics: {m: 1}}`, an instance reads `m = 1`
(the static value), although the claim implies instances are not affected
by `$statics` and would read the api value 2. -/
theorem C7_counterexample :
    (Class 0 [] (.jarr [])
        (.jobj 1 [("m", JVal.vnum 2), ("$statics", JVal.vobj [("m", JVal.vnum 1)])])).map
      (fun out => match out.1 with
        | .jcls _ c => some (instanceGet c "m")
        | _ => none)
      = .ok (some (JVal.vnum 1)) ∧
    ¬ (JVal.vnum 1 = JVal.vnum 2) :=
  ⟨rfl, by simp⟩

/-- C7, amended: for every non-singleton class built by `Class` whose api
carries a `$statics` map `S`, every member of `S` whose key is not in the
reserved exclusion set (and is not the dispatcher key `$super`) is applied
last: the class's own (static) table holds `S`'s value for that key,
overriding both the api map and anything contributed by any parent — and,
because the destination of the statics pass is the class, the member is
also mirrored onto the prototype, so instances read `S`'s value as well. -/
theorem C7_statics_amended (cid : Nat) (readyFns : List (Nat × JVal)) (parents : List JRef)
    (aid : Nat) (A S : Table) (k : String) (v : JVal)
    (hS : lookupT A "$statics" = some (.vobj S))
    (hsing : truthyJ ((lookupT A "$singleton").getD .undefV) = false)
    (hnd : (S.map Prod.fst).Nodup)
    (hmem : (k, v) ∈ S)
    (hign : k ∉ ignoredKeysClass)
    (hsup : ¬ k = "$super") :
    ∃ c invs reg,
      Class cid readyFns (.jarr parents) (.jobj aid A) = .ok (.jcls cid c, invs, reg) ∧
      lookupT c.statics k = some v ∧
      lookupT c.proto k = some v ∧
      instanceGet c k = v := by
  obtain ⟨invs, reg, hclass⟩ := Class_nonsingleton_ok cid readyFns parents aid A hsing
  rw [hS] at hclass
  simp only [Option.getD_some] at hclass
  have hstat : lookupT (composeCls parents A (.vobj S)).statics k = some v := by
    simp only [composeCls, extendC]
    exact lookupT_copyPairsT_mem _ S k v hign hnd hmem _
  have hproto : lookupT (composeCls parents A (.vobj S)).proto k = some v := by
    simp only [composeCls, extendC]
    rw [lookupT_setKey_other _ k "$super" _ (fun hh => hsup hh.symm)]
    exact lookupT_copyPairsT_mem _ S k v hign hnd hmem _
  exact ⟨composeCls parents A (.vobj S), invs, reg, hclass, hstat, hproto,
    by simp [instanceGet, hproto]⟩

/-- C7 witness: api `{m: 2, $statics: {m: 1}}` — the class's static table
and its instances both read `m = 1`. -/
theorem C7_witness :
    ∃ c invs reg,
      Class 0 [] (.jarr [])
          (.jobj 1 [("m", JVal.vnum 2), ("$statics", JVal.vobj [("m", JVal.vnum 1)])])
        = .ok (.jcls 0 c, invs, reg) ∧
      lookupT c.statics "m" = some (JVal.vnum 1) ∧
      lookupT c.proto "m" = some (JVal.vnum 1) ∧
      instanceGet c "m" = JVal.vnum 1 :=
  C7_statics_amended 0 [] [] 1
    [("m", JVal.vnum 2), ("$statics", JVal.vobj [("m", JVal.vnum 1)])]
    [("m", JVal.vnum 1)] "m" (JVal.vnum 1)
    rfl rfl (by simp) (by simp) (by decide) (by decide)

/-- C8, counterexample: the claim says EVERY key present in the api map `A`
is readable on an instance with `A`'s value.  But `Class` excludes the
reserved keys (line 167 plus the plugin keys of line 177) from every copy,
so the key `$statics`, although present in `A`, is not readable on an
instance: the instance reads `undefined`, not `A`'s value. -/
theorem C8_counterexample :
    (Class 0 [] (.jarr []) (.jobj 1 [("$statics", JVal.vobj [("x", JVal.vnum 1)])])).map
      (fun out => match out.1 with
        | .jcls _ c => some (instanceGet c "$statics")
        | _ => none)
      = .ok (some JVal.undefV) ∧
    ¬ (JVal.undefV = JVal.vobj [("x", JVal.vnum 1)]) :=
  ⟨rfl, by simp⟩

/-- C8, amended: for every non-singleton class built from parent list
`parents` and api map `A`, every key of `A` outside the reserved exclusion
set, different from the dispatcher key `$super`, and not overwritten by the
`$statics` pass, is readable on an instance with `A`'s value — regardless
of what any parent defines under the same key (own-api wins over any
ancestor, since the api pass of line 183 runs after the parent passes of
line 182). -/
theorem C8_api_amended (cid : Nat) (readyFns : List (Nat × JVal)) (parents : List JRef)
    (aid : Nat) (A : Table) (k : String) (v : JVal)
    (hnd : (A.map Prod.fst).Nodup)
    (hmem : (k, v) ∈ A)
    (hign : k ∉ ignoredKeysClass)
    (hsup : ¬ k = "$super")
    (hst : k ∉ staticsKeys A)
    (hsing : truthyJ ((lookupT A "$singleton").getD .undefV) = false) :
    ∃ c invs reg,
      Class cid readyFns (.jarr parents) (.jobj aid A) = .ok (.jcls cid c, invs, reg) ∧
      lookupT c.proto k = some v ∧
      instanceGet c k = v := by
  obtain ⟨invs, reg, hclass⟩ := Class_nonsingleton_ok cid readyFns parents aid A hsing
  have hskip : ∀ s, (lookupT A "$statics").getD .undefV = JVal.vobj s → k ∉ s.map Prod.fst := by
    intro s hs
    simpa [staticsKeys, hs] using hst
  have hproto : lookupT (composeCls parents A ((lookupT A "$statics").getD .undefV)).proto k
      = some v := by
    simp only [composeCls]
    rw [lookupT_setKey_other _ k "$super" _ (fun hh => hsup hh.symm)]
    rw [(extendC_statics_skip ignoredKeysClass _ _ k hskip).1]
    exact lookupT_copyPairsT_mem _ A k v hign hnd hmem _
  exact ⟨composeCls parents A ((lookupT A "$statics").getD .undefV), invs, reg, hclass,
    hproto, by simp [instanceGet, hproto]⟩

/-- C8 witness: a parent defines `m` as 9; the api defines `m` as 2; the
instance reads the api's 2. -/
theorem C8_witness :
    ∃ c invs reg,
      Class 0 [] (.jarr [.jcls 3 ⟨[], [("m", JVal.vnum 9)]⟩])
          (.jobj 1 [("m", JVal.vnum 2)])
        = .ok (.jcls 0 c, invs, reg) ∧
      lookupT c.proto "m" = some (JVal.vnum 2) ∧
      instanceGet c "m" = JVal.vnum 2 :=
  C8_api_amended 0 [] [.jcls 3 ⟨[], [("m", JVal.vnum 9)]⟩] 1
    [("m", JVal.vnum 2)] "m" (JVal.vnum 2)
    (by simp) (by simp) (by decide) (by decide) (by decide) rfl

/-! ## Claims C2 and C10 — the ready-callback registry -/

theorem scanInner_full (cR : JRef) (eid : Nat) (cb : JVal) (len : Nat) :
    ∀ (ps : List JRef) (cnt : Nat) (acc : List Invocation), cnt + ps.length ≤ len →
      scanInner cR eid cb len ps cnt acc =
        (cnt + ps.length,
          acc ++ (ps.filter (fun pa => refIdJ pa = some eid)).map
            (fun pa => ⟨pa, cb, cR⟩)) := by
  intro ps
  induction ps with
  | nil => intro cnt acc _; simp [scanInner]
  | cons pa rest ih =>
    intro cnt acc h
    have hlen : cnt + rest.length + 1 ≤ len := by
      simp only [List.length_cons] at h
      omega
    have hcnt : ¬ len ≤ cnt := by omega
    by_cases hm : refIdJ pa = some eid
    · have hrec := ih (cnt + 1) (acc ++ [Invocation.mk pa cb cR]) (by omega)
      simp only [scanInner, if_pos hm, if_neg hcnt]
      rw [hrec]
      simp only [Prod.mk.injEq]
      refine ⟨by simp only [List.length_cons]; omega, ?_⟩
      simp [List.filter_cons, hm]
    · have hrec := ih (cnt + 1) acc (by omega)
      simp only [scanInner, if_neg hm, if_neg hcnt]
      rw [hrec]
      simp only [Prod.mk.injEq]
      refine ⟨by simp only [List.length_cons]; omega, ?_⟩
      simp [List.filter_cons, hm]

theorem scanInner_sat (cR : JRef) (eid : Nat) (cb : JVal) (len : Nat) (pa : JRef)
    (rest : List JRef) (cnt : Nat) (acc : List Invocation) (h : len ≤ cnt) :
    scanInner cR eid cb len (pa :: rest) cnt acc =
      (cnt + 1, acc ++ if refIdJ pa = some eid then [⟨pa, cb, cR⟩] else []) := by
  by_cases hm : refIdJ pa = some eid
  · simp [scanInner, hm, if_pos h]
  · simp [scanInner, hm, if_pos h]

theorem foldl_sat (cR : JRef) (ps : List JRef) (entries : List (Nat × JVal)) :
    ∀ (cnt : Nat) (acc : List Invocation), ps.length ≤ cnt →
      ((entries.foldl (fun st e => scanInner cR e.1 e.2 ps.length ps st.1 st.2)
        (cnt, acc))).2 =
        acc ++ entries.filterMap (fun e2 =>
          match ps with
          | [] => none
          | pa :: _ => if refIdJ pa = some e2.1 then some ⟨pa, e2.2, cR⟩ else none) := by
  induction entries with
  | nil => intro cnt acc _; simp
  | cons e es ih =>
    intro cnt acc h
    cases ps with
    | nil =>
      rw [List.foldl_cons]
      simpa [List.filterMap_cons] using ih cnt acc (by simp)
    | cons pa rest =>
      simp only [List.foldl_cons]
      rw [scanInner_sat cR e.1 e.2 (pa :: rest).length pa rest cnt acc h]
      rw [ih (cnt + 1) _ (by omega)]
      by_cases hm : refIdJ pa = some e.1
      · simp [List.filterMap_cons, hm]
      · simp [List.filterMap_cons, hm]

/-- Closed form of the registry scan: the FIRST registry entry is matched
against every parent (the shared counter has not yet reached `len`), while
every LATER entry is matched against the first parent only (the counter is
already saturated, so the inner `each` stops after one step). -/
theorem readyScan_closed (cR : JRef) (e : Nat × JVal) (rest : List (Nat × JVal))
    (ps : List JRef) :
    readyScan (e :: rest) (some ps) cR =
      (ps.filter (fun pa => refIdJ pa = some e.1)).map (fun pa => ⟨pa, e.2, cR⟩) ++
      rest.filterMap (fun e2 =>
        match ps with
        | [] => none
        | pa :: _ => if refIdJ pa = some e2.1 then some ⟨pa, e2.2, cR⟩ else none) := by
  unfold readyScan
  simp only [List.foldl_cons]
  rw [scanInner_full cR e.1 e.2 ps.length ps 0 [] (by simp)]
  rw [foldl_sat cR ps rest (0 + ps.length) _ (by omega)]
  simp

/-- `Class` with a single class argument in parent position wraps it into a
one-element parent array (line 169). -/
theorem Class_jcls_jobj (cid : Nat) (readyFns : List (Nat × JVal)) (b : Nat) (c : ClazzV)
    (aid : Nat) (A : Table) :
    Class cid readyFns (.jcls b c) (.jobj aid A) =
      Class cid readyFns (.jarr [.jcls b c]) (.jobj aid A) := rfl

/-- C2, counterexample: the registry holds the entries `(1, callback 10)`
and `(2, callback 20)`, and a new class is declared with parents
`[object 3, object 2]`.  The class of the second entry appears in the
parent list (as the second parent), so the claim requires its callback 20
to be invoked — but the declaration performs NO invocation at all: the
scan's counter (shared across registry entries, lines 194-204) is already
saturated when the second entry is processed, so only the first parent
(object 3, which does not match) is examined. -/
theorem C2_counterexample :
    (Class 4 [(1, JVal.vfn 10), (2, JVal.vfn 20)]
        (.jarr [.jobj 3 [], .jobj 2 []]) (.jobj 9 [])).map (fun out => out.2.1)
      = .ok ([] : List Invocation) := rfl

/-- C2, amended: when a new class is declared, the registry scan invokes,
for the FIRST entry of the registry, that entry's callback once for every
parent whose identity matches the entry's class (with the new class as
argument); every LATER entry is checked against the FIRST parent only,
because the single counter shared across entries saturates after the first
entry's scan.  In particular the claim's concrete scenario holds: with
`Base` the sole registry entry, declaring `Class(Base, {...})` (api without
a `$ready` of its own) triggers Base's callback exactly once,
synchronously, with the new class as argument, and the registry is left
unchanged (nothing new is registered). -/
theorem C2_ready_scan_amended :
    (∀ (cR : JRef) (e : Nat × JVal) (rest : List (Nat × JVal)) (ps : List JRef),
      readyScan (e :: rest) (some ps) cR =
        (ps.filter (fun pa => refIdJ pa = some e.1)).map (fun pa => ⟨pa, e.2, cR⟩) ++
        rest.filterMap (fun e2 =>
          match ps with
          | [] => none
          | pa :: _ => if refIdJ pa = some e2.1 then some ⟨pa, e2.2, cR⟩ else none)) ∧
    (∀ (cid b : Nat) (c : ClazzV) (f : JVal) (aid : Nat) (A : Table),
      isFunctionJ ((lookupT A "$ready").getD .undefV) = false →
      ∃ ref, Class cid [(b, f)] (.jcls b c) (.jobj aid A) =
        .ok (ref, [⟨.jcls b c, f, ref⟩], [(b, f)])) := by
  refine ⟨readyScan_closed, ?_⟩
  intro cid b c f aid A hready
  rw [Class_jcls_jobj, Class_jarr_jobj]
  cases hsing : truthyJ ((lookupT A "$singleton").getD .undefV) with
  | false =>
    exact ⟨.jcls cid (composeCls [.jcls b c] A ((lookupT A "$statics").getD .undefV)),
      by simp [hsing, hready, readyScan_closed, refIdJ]⟩
  | true =>
    exact ⟨.jobj cid (composeSingleton [.jcls b c] A ((lookupT A "$statics").getD .undefV)),
      by simp [hsing, hready, readyScan_closed, refIdJ]⟩

/-- C2 witness: `Base` (identity 1, callback 5) is the sole registry entry;
`Class(Base, {})` invokes the callback exactly once, with the new class as
argument, receiver `Base`, and registers nothing new. -/
theorem C2_witness :
    isFunctionJ ((lookupT ([] : Table) "$ready").getD .undefV) = false ∧
    ∃ ref, Class 9 [(1, JVal.vfn 5)] (.jcls 1 ⟨[], []⟩) (.jobj 0 []) =
      .ok (ref, [⟨.jcls 1 ⟨[], []⟩, JVal.vfn 5, ref⟩], [(1, JVal.vfn 5)]) :=
  ⟨rfl, C2_ready_scan_amended.2 9 1 ⟨[], []⟩ (JVal.vfn 5) 0 [] rfl⟩

theorem scanInner_receivers (cR : JRef) (eid : Nat) (cb : JVal) (len : Nat) :
    ∀ (ps : List JRef) (cnt : Nat) (acc : List Invocation) (i : Invocation),
      i ∈ (scanInner cR eid cb len ps cnt acc).2 → i ∈ acc ∨ i.receiver ∈ ps := by
  intro ps
  induction ps with
  | nil =>
    intro cnt acc i hi
    simp only [scanInner] at hi
    exact Or.inl hi
  | cons pa rest ih =>
    intro cnt acc i hi
    simp only [scanInner] at hi
    by_cases hm : refIdJ pa = some eid
    · simp only [if_pos hm] at hi
      by_cases hlen : len ≤ cnt
      · rw [if_pos hlen] at hi
        rcases List.mem_append.mp hi with hacc | hone
        · exact Or.inl hacc
        · right
          simp only [List.mem_singleton] at hone
          subst hone
          exact List.mem_cons_self pa rest
      · rw [if_neg hlen] at hi
        rcases ih (cnt + 1) (acc ++ [Invocation.mk pa cb cR]) i hi with hacc | hrest
        · rcases List.mem_append.mp hacc with h1 | h2
          · exact Or.inl h1
          · right
            simp only [List.mem_singleton] at h2
            subst h2
            exact List.mem_cons_self pa rest
        · exact Or.inr (List.mem_cons_of_mem pa hrest)
    · simp only [if_neg hm] at hi
      by_cases hlen : len ≤ cnt
      · rw [if_pos hlen] at hi
        exact Or.inl hi
      · rw [if_neg hlen] at hi
        rcases ih (cnt + 1) acc i hi with hacc | hrest
        · exact Or.inl hacc
        · exact Or.inr (List.mem_cons_of_mem pa hrest)

theorem readyScan_receivers (readyFns : List (Nat × JVal)) (ps : List JRef) (cR : JRef) :
    ∀ i ∈ readyScan readyFns (some ps) cR, i.receiver ∈ ps := by
  have main : ∀ (entries : List (Nat × JVal)) (st : Nat × List Invocation),
      (∀ i ∈ st.2, i.receiver ∈ ps) →
      ∀ i ∈ (entries.foldl (fun st e => scanInner cR e.1 e.2 ps.length ps st.1 st.2) st).2,
        i.receiver ∈ ps := by
    intro entries
    induction entries with
    | nil => intro st h i hi; exact h i hi
    | cons e es ih =>
      intro st h i hi
      simp only [List.foldl_cons] at hi
      refine ih (scanInner cR e.1 e.2 ps.length ps st.1 st.2) ?_ i hi
      intro j hj
      rcases scanInner_receivers cR e.1 e.2 ps.length ps st.1 st.2 j hj with hacc | hps
      · exact h j hacc
      · exact hps
  intro i hi
  unfold readyScan at hi
  exact main readyFns (0, []) (by simp) i hi

/-- C10: for every `Class(parents, api)` call whose api declares a `$ready`
function (and whose fresh class identity does not occur among the parents),
construction itself invokes that callback exactly once, synchronously, with
the newly created class as receiver and argument (the last recorded
invocation, after the registry-scan invocations, whose receivers all lie
among the parents), and the `(class, callback)` entry is appended to the
registry at the end of the plugin run. -/
theorem C10_own_ready (cid : Nat) (readyFns : List (Nat × JVal)) (ps : List JRef)
    (aid : Nat) (A : Table) (fid : Nat)
    (hready : lookupT A "$ready" = some (.vfn fid))
    (hfresh : ∀ p ∈ ps, ¬ refIdJ p = some cid) :
    ∃ ref scanInvs,
      Class cid readyFns (.jarr ps) (.jobj aid A)
        = .ok (ref, scanInvs ++ [⟨ref, .vfn fid, ref⟩], readyFns ++ [(cid, .vfn fid)]) ∧
      refIdJ ref = some cid ∧
      (∀ i ∈ scanInvs, i.receiver ∈ ps) ∧
      List.countP (fun i => refIdJ i.receiver = some cid)
        (scanInvs ++ [⟨ref, .vfn fid, ref⟩]) = 1 := by
  have hfn : isFunctionJ ((lookupT A "$ready").getD .undefV) = true := by
    simp [hready, isFunctionJ]
  have hcount : ∀ ref : JRef, refIdJ ref = some cid →
      List.countP (fun i => refIdJ i.receiver = some cid)
        (readyScan readyFns (some ps) ref ++ [⟨ref, .vfn fid, ref⟩]) = 1 := by
    intro ref href
    rw [List.countP_append]
    have h0 : List.countP (fun i => refIdJ i.receiver = some cid)
        (readyScan readyFns (some ps) ref) = 0 := by
      rw [List.countP_eq_zero]
      intro i hi
      have hr := readyScan_receivers readyFns ps ref i hi
      simpa using hfresh _ hr
    rw [h0]
    simp [List.countP_cons, href]
  cases hsing : truthyJ ((lookupT A "$singleton").getD .undefV) with
  | false =>
    refine ⟨.jcls cid (composeCls ps A ((lookupT A "$statics").getD .undefV)),
      readyScan readyFns (some ps)
        (.jcls cid (composeCls ps A ((lookupT A "$statics").getD .undefV))),
      ?_, rfl, readyScan_receivers readyFns ps _, hcount _ rfl⟩
    rw [Class_jarr_jobj]
    simp [hsing, hfn, hready, isFunctionJ]
  | true =>
    refine ⟨.jobj cid (composeSingleton ps A ((lookupT A "$statics").getD .undefV)),
      readyScan readyFns (some ps)
        (.jobj cid (composeSingleton ps A ((lookupT A "$statics").getD .undefV))),
      ?_, rfl, readyScan_receivers readyFns ps _, hcount _ rfl⟩
    rw [Class_jarr_jobj]
    simp [hsing, hfn, hready, isFunctionJ]

/-- C10 witness: registry `[(1, callback 10)]`, one parent (object 1), api
`{$ready: function 42}` — the new class (identity 7) gets its callback
invoked with itself as receiver and argument, and `(7, callback 42)` is
appended to the registry. -/
theorem C10_witness :
    lookupT [("$ready", JVal.vfn 42)] "$ready" = some (JVal.vfn 42) ∧
    ∃ ref scanInvs,
      Class 7 [(1, JVal.vfn 10)] (.jarr [.jobj 1 []]) (.jobj 9 [("$ready", JVal.vfn 42)])
        = .ok (ref, scanInvs ++ [⟨ref, .vfn 42, ref⟩],
            [(1, JVal.vfn 10)] ++ [(7, JVal.vfn 42)]) ∧
      refIdJ ref = some 7 ∧
      (∀ i ∈ scanInvs, i.receiver ∈ [JRef.jobj 1 []]) ∧
      List.countP (fun i => refIdJ i.receiver = some 7)
        (scanInvs ++ [⟨ref, .vfn 42, ref⟩]) = 1 :=
  ⟨rfl, C10_own_ready 7 [(1, JVal.vfn 10)] [.jobj 1 []] 9 [("$ready", JVal.vfn 42)] 42
    rfl (by decide)⟩

end JSFace
